import Mathlib

/-!
Shallow embedding of `src/mem_679_minesweeper_jo_2/game.py` (Minesweeper).

The Python program mutates a 2D grid of `Cell` objects in place; here the
grid is modelled as a total function `Nat → Nat → Cell` together with the
board dimensions, and every mutation returns an updated board.  The
recursive flood-fill `reveal_cell` / `_reveal_adjacent_cells` is modelled
with an explicit fuel parameter (`reveal_cell_fuel`); the fuel-independence
theorem below shows that any fuel at least the number of unrevealed cells
yields the same result, which is the termination argument of the Python
recursion.  Random mine placement (`random.randint`) is modelled by an
explicit stream of proposed coordinates plus fuel for the rejection-sampling
loop; construction returns `none` when the loop does not finish within the
fuel.  Python's list indexing on `self.grid[x][y]` (which accepts negative
indices down to `-len` and raises `IndexError` otherwise) is modelled by
`pyIdx`, and the raising entry points return `Option`.
-/

/-- Cell from `game.py` lines 5-45: coordinates plus the four state fields,
initialised exactly as in `Cell.__init__`. -/
structure Cell where
  x : Nat
  y : Nat
  is_mine : Bool := false
  is_revealed : Bool := false
  is_flagged : Bool := false
  adjacent_mines : Nat := 0
deriving DecidableEq

/-- Cell.reveal (lines 33-38): sets `is_revealed` unless the cell is flagged. -/
def Cell.reveal (c : Cell) : Cell :=
  if c.is_flagged then c else { c with is_revealed := true }

/-- Cell.toggle_flag (lines 40-45): flips `is_flagged` unless the cell is revealed. -/
def Cell.toggle_flag (c : Cell) : Cell :=
  if c.is_revealed then c else { c with is_flagged := !c.is_flagged }

/-- Board from `game.py` lines 49-72: dimensions, requested mine count and the
grid of cells.  The Python 2D list `grid[x][y]` (column-major, `width` columns
of `height` cells) is modelled as a total function on coordinates; only the
entries with `x < width`, `y < height` correspond to real cells. -/
structure Board where
  width : Nat
  height : Nat
  num_mines : Nat
  grid : Nat → Nat → Cell

/-- Replacement of the cell object at `(x, y)`; models in-place mutation of
`self.grid[x][y]`. -/
def Board.setCell (b : Board) (x y : Nat) (c : Cell) : Board :=
  { b with grid := fun i j => if i = x ∧ j = y then c else b.grid i j }

/-- Python `range(a, b)` over the clamped neighbourhood indices used in
`_count_adjacent_mines` and `_reveal_adjacent_cells`:
`range(max(0, x - 1), min(n, x + 2))`.  Both bounds are integers in the
source (`x - 1` can be `-1`, and `x` itself is negative at the top level of
`reveal_cell` when the caller passes a negative index), but every element of
the resulting range is a valid nonnegative index, so the list has `Nat`
entries. -/
def nbrIdxs (n : Nat) (x : Int) : List Nat :=
  List.range' (max 0 (x - 1)).toNat ((min (n : Int) (x + 2)).toNat - (max 0 (x - 1)).toNat)

/-- The nested `for i ... for j ...` iteration space of the clamped 3x3
neighbourhood loops, as the lexicographic list of index pairs. -/
def nbrPairs (w h : Nat) (x y : Int) : List (Nat × Nat) :=
  (nbrIdxs w x).product (nbrIdxs h y)

/-- Board._count_adjacent_mines (lines 97-113): count of mine cells over the
clamped 3x3 neighbourhood double loop. -/
def Board.count_adjacent_mines (b : Board) (x y : Nat) : Nat :=
  (nbrPairs b.width b.height (x : Int) (y : Int)).countP
    (fun p => (b.grid p.1 p.2).is_mine)

/-- Board._calculate_adjacency (lines 88-95): for every in-range non-mine cell,
store the adjacent-mine count.  The Python loop performs the assignments
sequentially, but each assignment only writes `adjacent_mines` and the count
only reads `is_mine`, so the simultaneous pointwise update is equivalent. -/
def Board.calculate_adjacency (b : Board) : Board :=
  { b with grid := fun x y =>
      if x < b.width ∧ y < b.height ∧ (b.grid x y).is_mine = false then
        { b.grid x y with adjacent_mines := b.count_adjacent_mines x y }
      else b.grid x y }

/-- Board._place_mines (lines 76-86): rejection-sampling loop.  `stream k` is
the pair returned by the two `random.randint` calls of iteration `k`; `placed`
is `mines_placed`.  `none` models the loop not finishing within `fuel`
iterations (the Python loop simply keeps running). -/
def Board.place_mines (stream : Nat → Nat × Nat) :
    Nat → Nat → Nat → Board → Option Board
  | 0, _, placed, b => if b.num_mines ≤ placed then some b else none
  | fuel + 1, k, placed, b =>
    if b.num_mines ≤ placed then some b
    else
      if (b.grid (stream k).1 (stream k).2).is_mine then
        Board.place_mines stream fuel (k + 1) placed b
      else
        Board.place_mines stream fuel (k + 1) (placed + 1)
          (b.setCell (stream k).1 (stream k).2
            { b.grid (stream k).1 (stream k).2 with is_mine := true })

/-- The grid as built by `Board.__init__` line 72: fresh cells everywhere. -/
def Board.initGrid (w h m : Nat) : Board :=
  { width := w, height := h, num_mines := m, grid := fun x y => { x := x, y := y } }

/-- Board.__init__ (lines 60-74): build the grid, place the mines, compute
adjacency.  `none` when the placement loop does not finish within `fuel`. -/
def Board.new (w h m : Nat) (stream : Nat → Nat × Nat) (fuel : Nat) : Option Board :=
  (Board.place_mines stream fuel 0 0 (Board.initGrid w h m)).map Board.calculate_adjacency

/-- Board._reveal_adjacent_cells (lines 130-141), parametric in the function
used for the recursive `reveal_cell` call: iterate over the clamped 3x3
neighbourhood and recurse on every cell not yet revealed in the current
state.  `self.width` / `self.height` are read at each iteration in the
source but never change, so the iteration space is fixed up front. -/
def reveal_adjacent_cells (r : Board → Nat → Nat → Board) (b : Board) (x y : Int) : Board :=
  (nbrPairs b.width b.height x y).foldl
    (fun s p => if (s.grid p.1 p.2).is_revealed then s else r s p.1 p.2) b

/-- Board.reveal_cell (lines 115-128) with explicit fuel for the mutual
recursion with `_reveal_adjacent_cells`.  The guard, the `cell.reveal()`
call and the zero-adjacency flood condition follow the source; the condition
reads `adjacent_mines` and `is_mine` of the clicked cell, which
`cell.reveal()` does not change. -/
def reveal_cell_fuel : Nat → Board → Nat → Nat → Board
  | 0, b, _, _ => b
  | fuel + 1, b, x, y =>
    if (b.grid x y).is_revealed || (b.grid x y).is_flagged then b
    else
      if (b.grid x y).adjacent_mines = 0 ∧ (b.grid x y).is_mine = false then
        reveal_adjacent_cells (reveal_cell_fuel fuel)
          (b.setCell x y (b.grid x y).reveal) (x : Int) (y : Int)
      else b.setCell x y (b.grid x y).reveal

/-- Number of in-range cells not yet revealed; the measure that makes the
flood-fill recursion well-founded. -/
def Board.unrevealedCount (b : Board) : Nat :=
  (((Finset.range b.width) ×ˢ (Finset.range b.height)).filter
    (fun p => (b.grid p.1 p.2).is_revealed = false)).card

/-- Board.reveal_cell at an in-range coordinate: the fuelled recursion run
with enough fuel (one unit is consumed only when a cell gets revealed, and
when the count is zero the clicked cell is already revealed and the call is
a no-op, matching the guard). -/
def Board.reveal_cell (b : Board) (x y : Nat) : Board :=
  reveal_cell_fuel b.unrevealedCount b x y

/-- Board.toggle_flag (lines 143-151): delegates to the cell. -/
def Board.toggle_flag (b : Board) (x y : Nat) : Board :=
  b.setCell x y (b.grid x y).toggle_flag

/-- Board.check_win (lines 153-165): false as soon as some mine is unflagged
or some non-mine cell is unrevealed, true otherwise. -/
def Board.check_win (b : Board) : Bool :=
  (List.range b.width).all fun x =>
    (List.range b.height).all fun y =>
      !(((b.grid x y).is_mine && !(b.grid x y).is_flagged) ||
        (!(b.grid x y).is_mine && !(b.grid x y).is_revealed))

/-- Number of in-range mine cells. -/
def Board.mineCount (b : Board) : Nat :=
  (((Finset.range b.width) ×ˢ (Finset.range b.height)).filter
    (fun p => (b.grid p.1 p.2).is_mine = true)).card

/-- Python list indexing for a list of length `len`: indices in `[0, len)`
are used directly, indices in `[-len, 0)` alias from the end, everything
else raises `IndexError` (modelled as `none`). -/
def pyIdx (len : Nat) (i : Int) : Option Nat :=
  if 0 ≤ i ∧ i < (len : Int) then some i.toNat
  else if -(len : Int) ≤ i ∧ i < 0 then some (i + len).toNat
  else none

/-- Board.toggle_flag as reached from Python with arbitrary integer
coordinates: `self.grid[x][y]` resolves both indices with Python list
semantics and mutates the aliased cell object. -/
def Board.toggle_flag_py (b : Board) (x y : Int) : Option Board := do
  let xi ← pyIdx b.width x
  let yi ← pyIdx b.height y
  pure (b.setCell xi yi (b.grid xi yi).toggle_flag)

/-- Board.reveal_cell as reached from Python with arbitrary integer
coordinates: `cell = self.grid[x][y]` resolves the indices with Python list
semantics (the aliased cell object is read and mutated), but the flood-fill
`_reveal_adjacent_cells(x, y)` receives the original, possibly negative,
coordinates. -/
def Board.reveal_cell_py (b : Board) (x y : Int) : Option Board := do
  let xi ← pyIdx b.width x
  let yi ← pyIdx b.height y
  if (b.grid xi yi).is_revealed || (b.grid xi yi).is_flagged then pure b
  else
    if (b.grid xi yi).adjacent_mines = 0 ∧ (b.grid xi yi).is_mine = false then
      pure (reveal_adjacent_cells
        (reveal_cell_fuel (b.setCell xi yi (b.grid xi yi).reveal).unrevealedCount)
        (b.setCell xi yi (b.grid xi yi).reveal) x y)
    else pure (b.setCell xi yi (b.grid xi yi).reveal)

/-- Presentation-layer state of `Game` (lines 169-246): the board plus the
lost/won flags.  Window, font and the running flag are pure rendering state
with no bearing on the claims. -/
structure GameState where
  board : Board
  game_over : Bool
  game_won : Bool

/-- Game._handle_click (lines 223-246) after the pixel-to-grid division:
left click on a mine sets `game_over` without touching the board, left click
elsewhere reveals, right click toggles a flag; afterwards `check_win` may set
`game_won`. -/
def handle_click (s : GameState) (button : Nat) (gx gy : Nat) : GameState :=
  let s1 :=
    if button = 1 then
      if (s.board.grid gx gy).is_mine then { s with game_over := true }
      else { s with board := s.board.reveal_cell gx gy }
    else if button = 3 then { s with board := s.board.toggle_flag gx gy }
    else s
  if s1.board.check_win then { s1 with game_won := true } else s1

/-- Zero cell: non-mine with zero stored adjacency; the cells through which
the flood-fill propagates. -/
def Board.isZero (b : Board) (x y : Nat) : Prop :=
  (b.grid x y).is_mine = false ∧ (b.grid x y).adjacent_mines = 0

instance (b : Board) (x y : Nat) : Decidable (b.isZero x y) := by
  unfold Board.isZero; infer_instance

/-- Connectivity through zero cells in the clamped 3x3 neighbourhood graph,
starting from `(sx, sy)`: the contiguous zero-adjacency region of the start. -/
inductive ZeroReach (b : Board) (sx sy : Nat) : Nat → Nat → Prop where
  | base : b.isZero sx sy → ZeroReach b sx sy sx sy
  | step {px py qx qy : Nat} : ZeroReach b sx sy px py →
      qx ∈ nbrIdxs b.width (px : Int) → qy ∈ nbrIdxs b.height (py : Int) →
      b.isZero qx qy → ZeroReach b sx sy qx qy

/-- The fields the flood-fill never touches: dimensions, requested mine count,
and the mine / flag / adjacency data of every cell. -/
def SameSkeleton (b s : Board) : Prop :=
  s.width = b.width ∧ s.height = b.height ∧ s.num_mines = b.num_mines ∧
  ∀ i j, (s.grid i j).is_mine = (b.grid i j).is_mine ∧
    (s.grid i j).is_flagged = (b.grid i j).is_flagged ∧
    (s.grid i j).adjacent_mines = (b.grid i j).adjacent_mines

/-- Revealed cells of `b` are revealed cells of `s`. -/
def RevLe (b s : Board) : Prop :=
  ∀ i j, (b.grid i j).is_revealed = true → (s.grid i j).is_revealed = true

/-- No in-range cell is flagged. -/
def NoFlags (b : Board) : Prop :=
  ∀ i j, i < b.width → j < b.height → (b.grid i j).is_flagged = false

/-- Cells generated by the zero region of `(sx, sy)`: members of the region
together with every cell of a clamped 3x3 neighbourhood of a region member
(the region itself is included, each region cell being in its own clamped
neighbourhood). -/
def RegionBorder (b0 : Board) (sx sy i j : Nat) : Prop :=
  ∃ p q, ZeroReach b0 sx sy p q ∧
    i ∈ nbrIdxs b0.width (p : Int) ∧ j ∈ nbrIdxs b0.height (q : Int)

/-- Run invariant of the flood-fill on a flag-free board: every revealed zero
cell has each neighbour either already revealed or still queued in `L`. -/
def AlmostClosed (b0 s : Board) (L : List (Nat × Nat)) : Prop :=
  ∀ p q, p < b0.width → q < b0.height → (s.grid p q).is_revealed = true → b0.isZero p q →
    ∀ r ∈ nbrPairs b0.width b0.height (p : Int) (q : Int),
      (s.grid r.1 r.2).is_revealed = true ∨ r ∈ L

/-- Specification-side count of mine cells in the 3x3 neighbourhood of
`(x, y)` clamped to the grid: the number of in-range cells at distance at
most one in each coordinate that carry a mine. -/
def Board.mineNbhdCard (b : Board) (x y : Nat) : Nat :=
  (((Finset.range b.width) ×ˢ (Finset.range b.height)).filter
    (fun p => x - 1 ≤ p.1 ∧ p.1 ≤ x + 1 ∧ y - 1 ≤ p.2 ∧ p.2 ≤ y + 1 ∧
      (b.grid p.1 p.2).is_mine = true)).card

/-- Concrete 2x2 board with no mines, nothing revealed, nothing flagged. -/
def sampleFresh : Board :=
  { width := 2, height := 2, num_mines := 0, grid := fun x y => { x := x, y := y } }

/-- Concrete 3x1 mine-free board whose cell `(2, 0)` is flagged. -/
def sampleFlagged : Board :=
  { width := 3, height := 1, num_mines := 0,
    grid := fun x y => { x := x, y := y, is_flagged := x == 2 } }

/-- Concrete 3x1 mine-free board whose cell `(1, 0)` is already revealed. -/
def samplePartial : Board :=
  { width := 3, height := 1, num_mines := 0,
    grid := fun x y => { x := x, y := y, is_revealed := x == 1 } }

/-- Concrete 2x2 board with a single mine at `(0, 0)` and matching
adjacency counts. -/
def sampleMine : Board :=
  { width := 2, height := 2, num_mines := 1,
    grid := fun x y =>
      { x := x, y := y, is_mine := x == 0 && y == 0,
        adjacent_mines := if x = 0 ∧ y = 0 then 0 else 1 } }

/-- Concrete 1x2 board in the winning configuration: the mine at `(0, 0)` is
flagged and the non-mine cell `(0, 1)` is revealed. -/
def sampleWon : Board :=
  { width := 1, height := 2, num_mines := 1,
    grid := fun x y =>
      if x = 0 ∧ y = 0 then { x := 0, y := 0, is_mine := true, is_flagged := true }
      else { x := x, y := y, is_revealed := true, adjacent_mines := 1 } }

/-- Coordinate stream that enumerates a 2x2 grid. -/
def sampleStream : Nat → Nat × Nat := fun k => (k % 2, k / 2 % 2)

/-- The board produced by a concrete successful construction. -/
def sampleBuilt : Board :=
  (Board.new 2 2 1 sampleStream 1).getD (Board.initGrid 2 2 1)

/-- Game state over `sampleMine`, nothing decided yet. -/
def sampleGS : GameState := { board := sampleMine, game_over := false, game_won := false }

/-- Game state over `sampleWon`, nothing decided yet. -/
def sampleGSWon : GameState := { board := sampleWon, game_over := false, game_won := false }

/-- A flagged, unrevealed cell. -/
def cFlagged : Cell := { x := 0, y := 0, is_flagged := true }

/-- A fresh default cell. -/
def cPlain : Cell := { x := 0, y := 0 }

/-! ### Basic facts about the neighbourhood index lists -/

theorem mem_nbrIdxs {n : Nat} {x : Int} {q : Nat} :
    q ∈ nbrIdxs n x ↔ (x - 1 ≤ (q : Int) ∧ (q : Int) < (n : Int) ∧ (q : Int) < x + 2) := by
  unfold nbrIdxs
  rw [List.mem_range'_1]
  omega

theorem mem_nbrIdxs_nat {n : Nat} {x : Nat} {q : Nat} :
    q ∈ nbrIdxs n (x : Int) ↔ (x - 1 ≤ q ∧ q < n ∧ q < x + 2) := by
  rw [mem_nbrIdxs]
  omega

theorem nbrIdxs_lt {n : Nat} {x : Int} {q : Nat} (h : q ∈ nbrIdxs n x) : q < n := by
  rw [mem_nbrIdxs] at h
  omega

theorem self_mem_nbrIdxs {n : Nat} {x : Nat} (h : x < n) : x ∈ nbrIdxs n (x : Int) := by
  rw [mem_nbrIdxs_nat]
  omega

theorem mem_nbrPairs {w h : Nat} {x y : Int} {p : Nat × Nat} :
    p ∈ nbrPairs w h x y ↔ p.1 ∈ nbrIdxs w x ∧ p.2 ∈ nbrIdxs h y := by
  cases p
  exact List.pair_mem_product

theorem nbrPairs_valid {w h : Nat} {x y : Int} {p : Nat × Nat}
    (hp : p ∈ nbrPairs w h x y) : p.1 < w ∧ p.2 < h := by
  rw [mem_nbrPairs] at hp
  exact ⟨nbrIdxs_lt hp.1, nbrIdxs_lt hp.2⟩

/-! ### Basic facts about cell and grid updates -/

theorem Board.grid_setCell_self (b : Board) (x y : Nat) (c : Cell) :
    ((b.setCell x y c).grid x y) = c := by
  simp [Board.setCell]

theorem Board.grid_setCell_ne (b : Board) (x y : Nat) (c : Cell) {i j : Nat}
    (h : ¬(i = x ∧ j = y)) : ((b.setCell x y c).grid i j) = b.grid i j := by
  simp only [Board.setCell]
  rw [if_neg h]

@[simp] theorem Board.width_setCell (b : Board) (x y : Nat) (c : Cell) :
    (b.setCell x y c).width = b.width := rfl

@[simp] theorem Board.height_setCell (b : Board) (x y : Nat) (c : Cell) :
    (b.setCell x y c).height = b.height := rfl

@[simp] theorem Board.num_mines_setCell (b : Board) (x y : Nat) (c : Cell) :
    (b.setCell x y c).num_mines = b.num_mines := rfl

theorem Cell.reveal_is_mine (c : Cell) : c.reveal.is_mine = c.is_mine := by
  unfold Cell.reveal; split <;> rfl

theorem Cell.reveal_is_flagged (c : Cell) : c.reveal.is_flagged = c.is_flagged := by
  unfold Cell.reveal; split <;> rfl

theorem Cell.reveal_adjacent_mines (c : Cell) : c.reveal.adjacent_mines = c.adjacent_mines := by
  unfold Cell.reveal; split <;> rfl

theorem Cell.reveal_is_revealed (c : Cell) (h : c.is_flagged = false) :
    c.reveal.is_revealed = true := by
  unfold Cell.reveal
  rw [h]
  rfl

theorem Cell.reveal_is_revealed_mono (c : Cell) (h : c.is_revealed = true) :
    c.reveal.is_revealed = true := by
  unfold Cell.reveal; split <;> simp [h]



theorem sameSkeleton_refl (b : Board) : SameSkeleton b b :=
  ⟨rfl, rfl, rfl, fun _ _ => ⟨rfl, rfl, rfl⟩⟩

theorem sameSkeleton_trans {a b c : Board} (h1 : SameSkeleton a b) (h2 : SameSkeleton b c) :
    SameSkeleton a c := by
  obtain ⟨w1, h1', m1, g1⟩ := h1
  obtain ⟨w2, h2', m2, g2⟩ := h2
  refine ⟨w2.trans w1, h2'.trans h1', m2.trans m1, fun i j => ?_⟩
  obtain ⟨a1, a2, a3⟩ := g1 i j
  obtain ⟨c1, c2, c3⟩ := g2 i j
  exact ⟨c1.trans a1, c2.trans a2, c3.trans a3⟩

theorem sameSkeleton_setCell_reveal (b : Board) (x y : Nat) :
    SameSkeleton b (b.setCell x y (b.grid x y).reveal) := by
  refine ⟨rfl, rfl, rfl, fun i j => ?_⟩
  by_cases h : i = x ∧ j = y
  · obtain ⟨rfl, rfl⟩ := h
    rw [Board.grid_setCell_self]
    exact ⟨Cell.reveal_is_mine _, Cell.reveal_is_flagged _, Cell.reveal_adjacent_mines _⟩
  · rw [Board.grid_setCell_ne _ _ _ _ h]
    exact ⟨rfl, rfl, rfl⟩



theorem revLe_refl (b : Board) : RevLe b b := fun _ _ h => h

theorem revLe_trans {a b c : Board} (h1 : RevLe a b) (h2 : RevLe b c) : RevLe a c :=
  fun i j h => h2 i j (h1 i j h)

theorem revLe_setCell_reveal (b : Board) (x y : Nat) :
    RevLe b (b.setCell x y (b.grid x y).reveal) := by
  intro i j h
  by_cases hij : i = x ∧ j = y
  · obtain ⟨rfl, rfl⟩ := hij
    rw [Board.grid_setCell_self]
    exact Cell.reveal_is_revealed_mono _ h
  · rwa [Board.grid_setCell_ne _ _ _ _ hij]

/-- Invariant preservation along a `foldl`. -/
theorem foldl_inv {α β : Type _} (g : α → β → α) (P : α → Prop) :
    ∀ (l : List β) (b : α), P b → (∀ s p, p ∈ l → P s → P (g s p)) → P (l.foldl g b) := by
  intro l
  induction l with
  | nil => intro b hb _; simp only [List.foldl_nil]; exact hb
  | cons p t ih =>
    intro b hb hstep
    simp only [List.foldl_cons]
    exact ih _ (hstep b p (by simp) hb) fun s q hq hs => hstep s q (by simp [hq]) hs

theorem reveal_cell_fuel_succ (f : Nat) (b : Board) (x y : Nat) :
    reveal_cell_fuel (f + 1) b x y =
      if (b.grid x y).is_revealed || (b.grid x y).is_flagged then b
      else
        if (b.grid x y).adjacent_mines = 0 ∧ (b.grid x y).is_mine = false then
          reveal_adjacent_cells (reveal_cell_fuel f)
            (b.setCell x y (b.grid x y).reveal) (x : Int) (y : Int)
        else b.setCell x y (b.grid x y).reveal := rfl

theorem reveal_cell_fuel_skeleton :
    ∀ (fuel : Nat) (b : Board) (x y : Nat), SameSkeleton b (reveal_cell_fuel fuel b x y) := by
  intro fuel
  induction fuel with
  | zero => intro b x y; exact sameSkeleton_refl b
  | succ f ih =>
    intro b x y
    rw [reveal_cell_fuel_succ]
    split
    · exact sameSkeleton_refl b
    · split
      · unfold reveal_adjacent_cells
        apply foldl_inv _ (fun s => SameSkeleton b s) _ _ (sameSkeleton_setCell_reveal b x y)
        intro s p _ hs
        split
        · exact hs
        · exact sameSkeleton_trans hs (ih s p.1 p.2)
      · exact sameSkeleton_setCell_reveal b x y

theorem reveal_cell_fuel_mono :
    ∀ (fuel : Nat) (b : Board) (x y : Nat), RevLe b (reveal_cell_fuel fuel b x y) := by
  intro fuel
  induction fuel with
  | zero => intro b x y; exact revLe_refl b
  | succ f ih =>
    intro b x y
    rw [reveal_cell_fuel_succ]
    split
    · exact revLe_refl b
    · split
      · unfold reveal_adjacent_cells
        apply foldl_inv _ (fun s => RevLe b s) _ _ (revLe_setCell_reveal b x y)
        intro s p _ hs
        split
        · exact hs
        · exact revLe_trans hs (ih s p.1 p.2)
      · exact revLe_setCell_reveal b x y

/-! ### The unrevealed-cell count and fuel stability -/

theorem Board.mem_unrevealedFilter {b : Board} {i j : Nat} :
    (i, j) ∈ ((Finset.range b.width ×ˢ Finset.range b.height).filter
      (fun p => (b.grid p.1 p.2).is_revealed = false)) ↔
    i < b.width ∧ j < b.height ∧ (b.grid i j).is_revealed = false := by
  simp [Finset.mem_filter, Finset.mem_product, and_assoc]

theorem Board.unrevealedCount_eq_zero {b : Board} (h : b.unrevealedCount = 0) {i j : Nat}
    (hi : i < b.width) (hj : j < b.height) : (b.grid i j).is_revealed = true := by
  unfold Board.unrevealedCount at h
  rw [Finset.card_eq_zero] at h
  by_contra hr
  have hmem : (i, j) ∈ ((Finset.range b.width ×ˢ Finset.range b.height).filter
      (fun p => (b.grid p.1 p.2).is_revealed = false)) := by
    rw [Board.mem_unrevealedFilter]
    exact ⟨hi, hj, by simpa using hr⟩
  rw [h] at hmem
  simp at hmem

theorem Board.unrevealedCount_pos {b : Board} {i j : Nat} (hi : i < b.width)
    (hj : j < b.height) (hr : (b.grid i j).is_revealed = false) : 0 < b.unrevealedCount :=
  Finset.card_pos.mpr ⟨(i, j), Board.mem_unrevealedFilter.mpr ⟨hi, hj, hr⟩⟩

theorem Board.unrevealedCount_le_of {b s : Board} (hw : s.width = b.width)
    (hh : s.height = b.height) (hmono : RevLe b s) :
    s.unrevealedCount ≤ b.unrevealedCount := by
  apply Finset.card_le_card
  intro p hp
  cases p with
  | mk i j =>
    rw [Board.mem_unrevealedFilter] at hp ⊢
    refine ⟨hw ▸ hp.1, hh ▸ hp.2.1, ?_⟩
    rcases hb : (b.grid i j).is_revealed with _ | _
    · rfl
    · exact absurd (hmono i j hb) (by simp [hp.2.2])

theorem Board.unrevealedCount_reveal {b : Board} {x y : Nat} (hx : x < b.width)
    (hy : y < b.height) (hr : (b.grid x y).is_revealed = false)
    (hf : (b.grid x y).is_flagged = false) :
    (b.setCell x y (b.grid x y).reveal).unrevealedCount + 1 = b.unrevealedCount := by
  have hmem : (x, y) ∈ ((Finset.range b.width ×ˢ Finset.range b.height).filter
      (fun p => (b.grid p.1 p.2).is_revealed = false)) :=
    Board.mem_unrevealedFilter.mpr ⟨hx, hy, hr⟩
  have hpos : 0 < b.unrevealedCount := Board.unrevealedCount_pos hx hy hr
  have hset : ((Finset.range (b.setCell x y (b.grid x y).reveal).width ×ˢ
        Finset.range (b.setCell x y (b.grid x y).reveal).height).filter
      (fun p => ((b.setCell x y (b.grid x y).reveal).grid p.1 p.2).is_revealed = false)) =
      ((Finset.range b.width ×ˢ Finset.range b.height).filter
        (fun p => (b.grid p.1 p.2).is_revealed = false)).erase (x, y) := by
    ext p
    cases p with
    | mk i j =>
      rw [Finset.mem_erase, Board.mem_unrevealedFilter, Board.mem_unrevealedFilter]
      by_cases hij : i = x ∧ j = y
      · obtain ⟨rfl, rfl⟩ := hij
        rw [Board.width_setCell, Board.height_setCell, Board.grid_setCell_self,
          Cell.reveal_is_revealed _ hf]
        simp
      · rw [Board.width_setCell, Board.height_setCell, Board.grid_setCell_ne _ _ _ _ hij]
        have hne : ((i, j) : Nat × Nat) ≠ (x, y) := by
          intro hcontra
          injection hcontra with h1 h2
          exact hij ⟨h1, h2⟩
        simp [hne]
  unfold Board.unrevealedCount
  rw [hset, Finset.card_erase_of_mem hmem]
  unfold Board.unrevealedCount at hpos
  omega

theorem reveal_cell_fuel_width (fuel : Nat) (b : Board) (x y : Nat) :
    (reveal_cell_fuel fuel b x y).width = b.width :=
  (reveal_cell_fuel_skeleton fuel b x y).1

theorem reveal_cell_fuel_height (fuel : Nat) (b : Board) (x y : Nat) :
    (reveal_cell_fuel fuel b x y).height = b.height :=
  (reveal_cell_fuel_skeleton fuel b x y).2.1

theorem reveal_cell_fuel_count_le (fuel : Nat) (b : Board) (x y : Nat) :
    (reveal_cell_fuel fuel b x y).unrevealedCount ≤ b.unrevealedCount :=
  Board.unrevealedCount_le_of (reveal_cell_fuel_width fuel b x y)
    (reveal_cell_fuel_height fuel b x y) (reveal_cell_fuel_mono fuel b x y)

theorem fold_reveal_congr (f : Nat)
    (hstep : ∀ (s : Board) (i j : Nat), i < s.width → j < s.height → s.unrevealedCount ≤ f →
      reveal_cell_fuel (f + 1) s i j = reveal_cell_fuel f s i j) :
    ∀ (l : List (Nat × Nat)) (s : Board), (∀ p ∈ l, p.1 < s.width ∧ p.2 < s.height) →
      s.unrevealedCount ≤ f →
      l.foldl (fun t p => if (t.grid p.1 p.2).is_revealed then t
        else reveal_cell_fuel (f + 1) t p.1 p.2) s
      = l.foldl (fun t p => if (t.grid p.1 p.2).is_revealed then t
        else reveal_cell_fuel f t p.1 p.2) s := by
  intro l
  induction l with
  | nil => intro s _ _; rfl
  | cons p t ihl =>
    intro s hvalid hcnt
    simp only [List.foldl_cons]
    by_cases hrev : (s.grid p.1 p.2).is_revealed
    · rw [if_pos hrev, if_pos hrev]
      exact ihl s (fun q hq => hvalid q (List.mem_cons_of_mem p hq)) hcnt
    · rw [if_neg hrev, if_neg hrev]
      have hp := hvalid p (List.mem_cons_self p t)
      rw [hstep s p.1 p.2 hp.1 hp.2 hcnt]
      apply ihl
      · intro q hq
        have hq2 := hvalid q (List.mem_cons_of_mem p hq)
        rw [reveal_cell_fuel_width, reveal_cell_fuel_height]
        exact hq2
      · exact le_trans (reveal_cell_fuel_count_le f s p.1 p.2) hcnt

theorem reveal_cell_fuel_succ_eq :
    ∀ (fuel : Nat) (b : Board) (x y : Nat), x < b.width → y < b.height →
      b.unrevealedCount ≤ fuel →
      reveal_cell_fuel (fuel + 1) b x y = reveal_cell_fuel fuel b x y := by
  intro fuel
  induction fuel using Nat.strong_induction_on with
  | _ fuel ih =>
    intro b x y hx hy hfuel
    match fuel with
    | 0 =>
      have hrev : (b.grid x y).is_revealed = true :=
        Board.unrevealedCount_eq_zero (Nat.le_zero.mp hfuel) hx hy
      rw [reveal_cell_fuel_succ]
      rw [hrev]
      rfl
    | f + 1 =>
      rw [reveal_cell_fuel_succ (f + 1), reveal_cell_fuel_succ f]
      by_cases hguard : ((b.grid x y).is_revealed || (b.grid x y).is_flagged) = true
      · rw [if_pos hguard, if_pos hguard]
      · rw [if_neg hguard, if_neg hguard]
        by_cases hzero : (b.grid x y).adjacent_mines = 0 ∧ (b.grid x y).is_mine = false
        · rw [if_pos hzero, if_pos hzero]
          have hrf : (b.grid x y).is_revealed = false ∧ (b.grid x y).is_flagged = false := by
            simp only [Bool.or_eq_true, not_or, Bool.not_eq_true] at hguard
            exact hguard
          have hb1 : (b.setCell x y (b.grid x y).reveal).unrevealedCount + 1 =
              b.unrevealedCount :=
            Board.unrevealedCount_reveal hx hy hrf.1 hrf.2
          unfold reveal_adjacent_cells
          apply fold_reveal_congr f (fun s i j hi hj hc => ih f (Nat.lt_succ_self f) s i j hi hj hc)
          · intro q hq
            have := nbrPairs_valid hq
            rw [Board.width_setCell, Board.height_setCell] at this ⊢
            exact this
          · omega
        · rw [if_neg hzero, if_neg hzero]

theorem reveal_cell_fuel_stable (fuel : Nat) (b : Board) (x y : Nat)
    (hx : x < b.width) (hy : y < b.height) (hfuel : b.unrevealedCount ≤ fuel) :
    reveal_cell_fuel fuel b x y = b.reveal_cell x y := by
  unfold Board.reveal_cell
  induction fuel, hfuel using Nat.le_induction with
  | base => rfl
  | succ n hn ihn => rw [reveal_cell_fuel_succ_eq n b x y hx hy hn, ihn]

/-! ### Flood-fill soundness: only the zero region and its border get revealed -/





theorem reveal_cell_fuel_sound (b0 : Board) (sx sy : Nat) :
    ∀ (fuel : Nat) (s : Board) (x y : Nat),
      SameSkeleton b0 s →
      (∀ i j, i < b0.width → j < b0.height → (s.grid i j).is_revealed = true →
        RegionBorder b0 sx sy i j) →
      RegionBorder b0 sx sy x y →
      ∀ i j, i < b0.width → j < b0.height →
        ((reveal_cell_fuel fuel s x y).grid i j).is_revealed = true →
        RegionBorder b0 sx sy i j := by
  intro fuel
  induction fuel with
  | zero => intro s x y _ hsub _ i j hi hj hr; exact hsub i j hi hj hr
  | succ f ih =>
    intro s x y hs hsub hxy i j hi hj hr
    rw [reveal_cell_fuel_succ] at hr
    by_cases hguard : ((s.grid x y).is_revealed || (s.grid x y).is_flagged) = true
    · rw [if_pos hguard] at hr
      exact hsub i j hi hj hr
    · rw [if_neg hguard] at hr
      have hsub1 : ∀ i j, i < b0.width → j < b0.height →
          ((s.setCell x y (s.grid x y).reveal).grid i j).is_revealed = true →
          RegionBorder b0 sx sy i j := by
        intro i2 j2 hi2 hj2 hr2
        by_cases hij : i2 = x ∧ j2 = y
        · obtain ⟨rfl, rfl⟩ := hij
          exact hxy
        · rw [Board.grid_setCell_ne _ _ _ _ hij] at hr2
          exact hsub i2 j2 hi2 hj2 hr2
      have hskel1 : SameSkeleton b0 (s.setCell x y (s.grid x y).reveal) :=
        sameSkeleton_trans hs (sameSkeleton_setCell_reveal s x y)
      by_cases hzero : (s.grid x y).adjacent_mines = 0 ∧ (s.grid x y).is_mine = false
      · rw [if_pos hzero] at hr
        have hz0 : b0.isZero x y := by
          obtain ⟨_, _, _, hg⟩ := hs
          obtain ⟨hm, _, ha⟩ := hg x y
          exact ⟨hm ▸ hzero.2, ha ▸ hzero.1⟩
        obtain ⟨p, q, hreach, hxp, hyq⟩ := hxy
        have hreach2 : ZeroReach b0 sx sy x y := ZeroReach.step hreach hxp hyq hz0
        unfold reveal_adjacent_cells at hr
        have hfold : SameSkeleton b0 (reveal_adjacent_cells (reveal_cell_fuel f)
              (s.setCell x y (s.grid x y).reveal) (x : Int) (y : Int)) ∧
            (∀ i j, i < b0.width → j < b0.height →
              ((reveal_adjacent_cells (reveal_cell_fuel f)
                (s.setCell x y (s.grid x y).reveal) (x : Int) (y : Int)).grid i j).is_revealed
                = true → RegionBorder b0 sx sy i j) := by
          unfold reveal_adjacent_cells
          apply foldl_inv _ (fun t => SameSkeleton b0 t ∧
            (∀ i j, i < b0.width → j < b0.height → (t.grid i j).is_revealed = true →
              RegionBorder b0 sx sy i j)) _ _ ⟨hskel1, hsub1⟩
          intro t r hrmem ht
          split
          · exact ht
          · refine ⟨sameSkeleton_trans ht.1 (reveal_cell_fuel_skeleton f t r.1 r.2), ?_⟩
            apply ih t r.1 r.2 ht.1 ht.2
            rw [mem_nbrPairs, Board.width_setCell, Board.height_setCell, hs.1, hs.2.1] at hrmem
            exact ⟨x, y, hreach2, hrmem.1, hrmem.2⟩
        exact hfold.2 i j hi hj hr
      · rw [if_neg hzero] at hr
        exact hsub1 i j hi hj hr

/-! ### Flood-fill completeness: the whole zero region and its border get revealed -/



theorem fold_step_mono (f : Nat) (l : List (Nat × Nat)) (s : Board) :
    RevLe s (l.foldl (fun t p => if (t.grid p.1 p.2).is_revealed then t
      else reveal_cell_fuel f t p.1 p.2) s) := by
  apply foldl_inv _ (fun t => RevLe s t) _ _ (revLe_refl s)
  intro t r _ ht
  split
  · exact ht
  · exact revLe_trans ht (reveal_cell_fuel_mono f t r.1 r.2)

theorem fold_step_skeleton (b0 : Board) (f : Nat) (l : List (Nat × Nat)) (s : Board)
    (hs : SameSkeleton b0 s) :
    SameSkeleton b0 (l.foldl (fun t p => if (t.grid p.1 p.2).is_revealed then t
      else reveal_cell_fuel f t p.1 p.2) s) := by
  apply foldl_inv _ (fun t => SameSkeleton b0 t) _ _ hs
  intro t r _ ht
  split
  · exact ht
  · exact sameSkeleton_trans ht (reveal_cell_fuel_skeleton f t r.1 r.2)

theorem fold_step_count_le (f : Nat) (l : List (Nat × Nat)) (s : Board) :
    (l.foldl (fun t p => if (t.grid p.1 p.2).is_revealed then t
      else reveal_cell_fuel f t p.1 p.2) s).unrevealedCount ≤ s.unrevealedCount := by
  have hs := fold_step_skeleton s f l s (sameSkeleton_refl s)
  exact Board.unrevealedCount_le_of hs.1 hs.2.1 (fold_step_mono f l s)

theorem fold_reveal_complete (b0 : Board) (f : Nat)
    (haux : ∀ (s : Board) (x y : Nat) (L : List (Nat × Nat)),
      SameSkeleton b0 s → x < b0.width → y < b0.height →
      AlmostClosed b0 s ((x, y) :: L) → s.unrevealedCount ≤ f →
      AlmostClosed b0 (reveal_cell_fuel f s x y) L ∧
        ((reveal_cell_fuel f s x y).grid x y).is_revealed = true) :
    ∀ (l : List (Nat × Nat)) (pending : List (Nat × Nat)) (s : Board),
      SameSkeleton b0 s → (∀ r ∈ l, r.1 < b0.width ∧ r.2 < b0.height) →
      AlmostClosed b0 s (l ++ pending) → s.unrevealedCount ≤ f →
      AlmostClosed b0 (l.foldl (fun t p => if (t.grid p.1 p.2).is_revealed then t
        else reveal_cell_fuel f t p.1 p.2) s) pending ∧
      ∀ r ∈ l, ((l.foldl (fun t p => if (t.grid p.1 p.2).is_revealed then t
        else reveal_cell_fuel f t p.1 p.2) s).grid r.1 r.2).is_revealed = true := by
  intro l
  induction l with
  | nil =>
    intro pending s _ _ hAC _
    simp only [List.foldl_nil, List.nil_append] at hAC ⊢
    exact ⟨hAC, by simp⟩
  | cons r t ihl =>
    intro pending s hs hvalid hAC hcnt
    simp only [List.foldl_cons]
    by_cases hrev : (s.grid r.1 r.2).is_revealed = true
    · rw [if_pos hrev]
      have hAC2 : AlmostClosed b0 s (t ++ pending) := by
        intro p q hp hq hrevpq hz r2 hr2
        rcases hAC p q hp hq hrevpq hz r2 hr2 with h | h
        · exact Or.inl h
        · rw [List.cons_append, List.mem_cons] at h
          rcases h with rfl | h
          · exact Or.inl hrev
          · exact Or.inr h
      have hrest := ihl pending s hs (fun q hq => hvalid q (List.mem_cons_of_mem r hq)) hAC2 hcnt
      refine ⟨hrest.1, ?_⟩
      intro r2 hr2
      rw [List.mem_cons] at hr2
      rcases hr2 with rfl | hr2
      · exact fold_step_mono f t s r2.1 r2.2 hrev
      · exact hrest.2 r2 hr2
    · rw [if_neg hrev]
      have hr12 := hvalid r (List.mem_cons_self r t)
      have hACr : AlmostClosed b0 s ((r.1, r.2) :: (t ++ pending)) := by
        rw [List.cons_append] at hAC
        cases r
        exact hAC
      have hstep := haux s r.1 r.2 (t ++ pending) hs hr12.1 hr12.2 hACr hcnt
      have hskel2 : SameSkeleton b0 (reveal_cell_fuel f s r.1 r.2) :=
        sameSkeleton_trans hs (reveal_cell_fuel_skeleton f s r.1 r.2)
      have hcnt2 : (reveal_cell_fuel f s r.1 r.2).unrevealedCount ≤ f :=
        le_trans (reveal_cell_fuel_count_le f s r.1 r.2) hcnt
      have hrest := ihl pending (reveal_cell_fuel f s r.1 r.2) hskel2
        (fun q hq => hvalid q (List.mem_cons_of_mem r hq)) hstep.1 hcnt2
      refine ⟨hrest.1, ?_⟩
      intro r2 hr2
      rw [List.mem_cons] at hr2
      rcases hr2 with rfl | hr2
      · exact fold_step_mono f t (reveal_cell_fuel f s r2.1 r2.2) r2.1 r2.2 hstep.2
      · exact hrest.2 r2 hr2

theorem reveal_cell_fuel_complete (b0 : Board) (hnf : NoFlags b0) :
    ∀ (fuel : Nat) (s : Board) (x y : Nat) (L : List (Nat × Nat)),
      SameSkeleton b0 s → x < b0.width → y < b0.height →
      AlmostClosed b0 s ((x, y) :: L) → s.unrevealedCount ≤ fuel →
      AlmostClosed b0 (reveal_cell_fuel fuel s x y) L ∧
        ((reveal_cell_fuel fuel s x y).grid x y).is_revealed = true := by
  intro fuel
  induction fuel with
  | zero =>
    intro s x y L hs hx hy hAC hcnt
    have hallrev : ∀ i j, i < b0.width → j < b0.height → (s.grid i j).is_revealed = true := by
      intro i j hi hj
      exact Board.unrevealedCount_eq_zero (Nat.le_zero.mp hcnt) (hs.1 ▸ hi) (hs.2.1 ▸ hj)
    refine ⟨?_, hallrev x y hx hy⟩
    intro p q hp hq hrev hz r2 hr2
    have hv := nbrPairs_valid hr2
    exact Or.inl (hallrev r2.1 r2.2 hv.1 hv.2)
  | succ f ih =>
    intro s x y L hs hx hy hAC hcnt
    have hflag : (s.grid x y).is_flagged = false := by
      have := (hs.2.2.2 x y).2.1
      rw [this]
      exact hnf x y hx hy
    rw [reveal_cell_fuel_succ]
    by_cases hrev : (s.grid x y).is_revealed = true
    · rw [if_pos (by rw [hrev]; rfl)]
      refine ⟨?_, hrev⟩
      intro p q hp hq hrevpq hz r2 hr2
      rcases hAC p q hp hq hrevpq hz r2 hr2 with h | h
      · exact Or.inl h
      · rw [List.mem_cons] at h
        rcases h with rfl | h
        · exact Or.inl hrev
        · exact Or.inr h
    · have hrev' : (s.grid x y).is_revealed = false := by
        rcases hb : (s.grid x y).is_revealed with _ | _
        · rfl
        · exact absurd hb hrev
      rw [if_neg (by rw [hrev', hflag]; simp)]
      have hrev1 : ((s.setCell x y (s.grid x y).reveal).grid x y).is_revealed = true := by
        rw [Board.grid_setCell_self]
        exact Cell.reveal_is_revealed _ hflag
      have hcnt1 : (s.setCell x y (s.grid x y).reveal).unrevealedCount ≤ f := by
        have := Board.unrevealedCount_reveal (hs.1 ▸ hx) (hs.2.1 ▸ hy) hrev' hflag
        omega
      have hskel1 : SameSkeleton b0 (s.setCell x y (s.grid x y).reveal) :=
        sameSkeleton_trans hs (sameSkeleton_setCell_reveal s x y)
      have hrevle1 : RevLe s (s.setCell x y (s.grid x y).reveal) :=
        revLe_setCell_reveal s x y
      by_cases hzero : (s.grid x y).adjacent_mines = 0 ∧ (s.grid x y).is_mine = false
      · rw [if_pos hzero]
        unfold reveal_adjacent_cells
        rw [Board.width_setCell, Board.height_setCell, hs.1, hs.2.1]
        have hAC1 : AlmostClosed b0 (s.setCell x y (s.grid x y).reveal)
            (nbrPairs b0.width b0.height (x : Int) (y : Int) ++ L) := by
          intro p q hp hq hrevpq hz r2 hr2
          by_cases hpq : p = x ∧ q = y
          · obtain ⟨rfl, rfl⟩ := hpq
            exact Or.inr (List.mem_append_left _ hr2)
          · rw [Board.grid_setCell_ne _ _ _ _ hpq] at hrevpq
            rcases hAC p q hp hq hrevpq hz r2 hr2 with h | h
            · exact Or.inl (hrevle1 r2.1 r2.2 h)
            · rw [List.mem_cons] at h
              rcases h with rfl | h
              · exact Or.inl hrev1
              · exact Or.inr (List.mem_append_right _ h)
        have hfold := fold_reveal_complete b0 f ih
          (nbrPairs b0.width b0.height (x : Int) (y : Int)) L
          (s.setCell x y (s.grid x y).reveal) hskel1
          (fun r2 hr2 => nbrPairs_valid hr2) hAC1 hcnt1
        refine ⟨hfold.1, ?_⟩
        exact fold_step_mono f _ _ x y hrev1
      · rw [if_neg hzero]
        refine ⟨?_, hrev1⟩
        intro p q hp hq hrevpq hz r2 hr2
        by_cases hpq : p = x ∧ q = y
        · obtain ⟨rfl, rfl⟩ := hpq
          have : ¬ b0.isZero p q := by
            intro hcontra
            apply hzero
            obtain ⟨_, _, _, hg⟩ := hs
            obtain ⟨hm, _, ha⟩ := hg p q
            exact ⟨ha.trans hcontra.2, hm.trans hcontra.1⟩
          exact absurd hz this
        · rw [Board.grid_setCell_ne _ _ _ _ hpq] at hrevpq
          rcases hAC p q hp hq hrevpq hz r2 hr2 with h | h
          · exact Or.inl (hrevle1 r2.1 r2.2 h)
          · rw [List.mem_cons] at h
            rcases h with rfl | h
            · exact Or.inl hrev1
            · exact Or.inr h

theorem zeroReach_all_revealed (b0 bf : Board) (sx sy : Nat)
    (hx : sx < b0.width) (hy : sy < b0.height)
    (hclosed : AlmostClosed b0 bf [])
    (hstart : (bf.grid sx sy).is_revealed = true) :
    ∀ p q, ZeroReach b0 sx sy p q →
      (bf.grid p q).is_revealed = true ∧
      ∀ r ∈ nbrPairs b0.width b0.height (p : Int) (q : Int),
        (bf.grid r.1 r.2).is_revealed = true := by
  intro p q hreach
  induction hreach with
  | base hz =>
    refine ⟨hstart, ?_⟩
    intro r hr
    rcases hclosed sx sy hx hy hstart hz r hr with h | h
    · exact h
    · simp at h
  | step hreach2 hqx hqy hz ih =>
    rename_i px py qx qy
    have hrevq : (bf.grid qx qy).is_revealed = true :=
      ih.2 (qx, qy) (mem_nbrPairs.mpr ⟨hqx, hqy⟩)
    refine ⟨hrevq, ?_⟩
    intro r hr
    rcases hclosed qx qy (nbrIdxs_lt hqx) (nbrIdxs_lt hqy) hrevq hz r hr with h | h
    · exact h
    · simp at h

/-- C2 (amended): on a board with no revealed and no flagged cell, revealing
an in-range zero-adjacency non-mine cell reveals exactly the contiguous
zero-adjacency region of that cell together with the cells of the clamped
3x3 neighbourhoods of region members (the immediate border), and nothing
else. -/
theorem reveal_cell_zero_region_exact (b : Board) (x y : Nat)
    (hx : x < b.width) (hy : y < b.height)
    (hfresh : ∀ i, i < b.width → ∀ j, j < b.height → (b.grid i j).is_revealed = false)
    (hflags : ∀ i, i < b.width → ∀ j, j < b.height → (b.grid i j).is_flagged = false)
    (hz : b.isZero x y) :
    ∀ i j, i < b.width → j < b.height →
      (((b.reveal_cell x y).grid i j).is_revealed = true ↔ RegionBorder b x y i j) := by
  have hnf : NoFlags b := fun i j hi hj => hflags i hi j hj
  have hAC : AlmostClosed b b [(x, y)] := by
    intro p q hp hq hrev _ _ _
    rw [hfresh p hp q hq] at hrev
    cases hrev
  have hmain := reveal_cell_fuel_complete b hnf b.unrevealedCount b x y []
    (sameSkeleton_refl b) hx hy hAC (le_refl _)
  intro i j hi hj
  constructor
  · intro hr
    refine reveal_cell_fuel_sound b x y b.unrevealedCount b x y (sameSkeleton_refl b)
      ?_ ?_ i j hi hj hr
    · intro i2 j2 hi2 hj2 hr2
      rw [hfresh i2 hi2 j2 hj2] at hr2
      cases hr2
    · exact ⟨x, y, ZeroReach.base hz, self_mem_nbrIdxs hx, self_mem_nbrIdxs hy⟩
  · rintro ⟨p, q, hreach, hip, hjq⟩
    have hall := zeroReach_all_revealed b (b.reveal_cell x y) x y hx hy hmain.1 hmain.2
    exact (hall p q hreach).2 (i, j) (mem_nbrPairs.mpr ⟨hip, hjq⟩)

/-- C2 counterexample: the cell `(2, 0)` belongs to the contiguous
zero-adjacency region of the clicked zero cell `(0, 0)`, yet `reveal_cell 0 0`
leaves it unrevealed — on `sampleFlagged` because the flood-fill refuses the
flagged region cell `(2, 0)`, and on `samplePartial` because the flood-fill
does not re-enter the already revealed region cell `(1, 0)` and so never
reaches `(2, 0)`: the claim as stated over all boards is false. -/
theorem reveal_cell_zero_region_counterexample :
    (sampleFlagged.isZero 0 0 ∧ ZeroReach sampleFlagged 0 0 2 0 ∧
      ((sampleFlagged.reveal_cell 0 0).grid 2 0).is_revealed = false) ∧
    (samplePartial.isZero 0 0 ∧ ZeroReach samplePartial 0 0 2 0 ∧
      ((samplePartial.reveal_cell 0 0).grid 2 0).is_revealed = false) := by
  refine ⟨⟨by decide, ?_, by decide⟩, ⟨by decide, ?_, by decide⟩⟩
  · exact @ZeroReach.step sampleFlagged 0 0 1 0 2 0
      (@ZeroReach.step sampleFlagged 0 0 0 0 1 0
        (ZeroReach.base (by decide)) (by decide) (by decide) (by decide))
      (by decide) (by decide) (by decide)
  · exact @ZeroReach.step samplePartial 0 0 1 0 2 0
      (@ZeroReach.step samplePartial 0 0 0 0 1 0
        (ZeroReach.base (by decide)) (by decide) (by decide) (by decide))
      (by decide) (by decide) (by decide)

theorem reveal_cell_zero_region_exact_witness :
    (0 < sampleFresh.width) ∧ (0 < sampleFresh.height) ∧ sampleFresh.isZero 0 0 ∧
      (((sampleFresh.reveal_cell 0 0).grid 1 1).is_revealed = true ↔
        RegionBorder sampleFresh 0 0 1 1) :=
  ⟨by decide, by decide, by decide,
    reveal_cell_zero_region_exact sampleFresh 0 0 (by decide) (by decide)
      (by decide) (by decide) (by decide) 1 1 (by decide) (by decide)⟩

/-- C5: the flood-fill recursion terminates and its result is independent of
the fuel once the fuel covers the number of unrevealed cells: revealed cells
are never re-entered, so the unrevealed-cell count bounds the recursion
depth, and `Board.reveal_cell` is the common value of all sufficiently
fuelled runs. -/
theorem reveal_cell_terminates (b : Board) (x y f1 f2 : Nat)
    (hx : x < b.width) (hy : y < b.height)
    (h1 : b.unrevealedCount ≤ f1) (h2 : b.unrevealedCount ≤ f2) :
    reveal_cell_fuel f1 b x y = reveal_cell_fuel f2 b x y ∧
      reveal_cell_fuel f1 b x y = b.reveal_cell x y := by
  have e1 := reveal_cell_fuel_stable f1 b x y hx hy h1
  have e2 := reveal_cell_fuel_stable f2 b x y hx hy h2
  exact ⟨e1.trans e2.symm, e1⟩

theorem reveal_cell_terminates_witness :
    0 < sampleFresh.width ∧ sampleFresh.unrevealedCount ≤ 5 ∧
      (reveal_cell_fuel 5 sampleFresh 0 0 = reveal_cell_fuel 9 sampleFresh 0 0 ∧
        reveal_cell_fuel 5 sampleFresh 0 0 = sampleFresh.reveal_cell 0 0) :=
  ⟨by decide, by decide,
    reveal_cell_terminates sampleFresh 0 0 5 9 (by decide) (by decide) (by decide) (by decide)⟩

theorem win_cell_iff (c : Cell) :
    (!((c.is_mine && !c.is_flagged) || (!c.is_mine && !c.is_revealed))) = true ↔
      ((c.is_mine = true → c.is_flagged = true) ∧
        (c.is_mine = false → c.is_revealed = true)) := by
  rcases c with ⟨cx, cy, m, r, f, a⟩
  cases m <;> cases r <;> cases f <;> simp

/-- C1: `check_win` answers true exactly when every in-range mine cell is
flagged and every in-range non-mine cell is revealed. -/
theorem check_win_iff (b : Board) :
    b.check_win = true ↔
      ∀ x, x < b.width → ∀ y, y < b.height →
        ((b.grid x y).is_mine = true → (b.grid x y).is_flagged = true) ∧
        ((b.grid x y).is_mine = false → (b.grid x y).is_revealed = true) := by
  unfold Board.check_win
  simp only [List.all_eq_true, List.mem_range]
  constructor
  · intro hall x hx y hy
    exact (win_cell_iff _).mp (hall x hx y hy)
  · intro hall x hx y hy
    exact (win_cell_iff _).mpr (hall x hx y hy)

theorem check_win_iff_witness :
    sampleWon.check_win = true ↔
      ∀ x, x < sampleWon.width → ∀ y, y < sampleWon.height →
        ((sampleWon.grid x y).is_mine = true → (sampleWon.grid x y).is_flagged = true) ∧
        ((sampleWon.grid x y).is_mine = false → (sampleWon.grid x y).is_revealed = true) :=
  check_win_iff sampleWon

/-! ### Helpers for flag toggling -/

theorem Cell.toggle_flag_of_revealed (c : Cell) (h : c.is_revealed = true) :
    c.toggle_flag = c := by
  simp [Cell.toggle_flag, h]

theorem Cell.toggle_flag_of_unrevealed (c : Cell) (h : c.is_revealed = false) :
    c.toggle_flag = { c with is_flagged := !c.is_flagged } := by
  simp [Cell.toggle_flag, h]

theorem Cell.toggle_flag_is_revealed (c : Cell) :
    c.toggle_flag.is_revealed = c.is_revealed := by
  unfold Cell.toggle_flag; split <;> rfl

theorem Cell.toggle_flag_is_mine (c : Cell) : c.toggle_flag.is_mine = c.is_mine := by
  unfold Cell.toggle_flag; split <;> rfl

theorem Cell.toggle_toggle (c : Cell) (h : c.is_revealed = false) :
    c.toggle_flag.toggle_flag = c := by
  rcases c with ⟨cx, cy, m, r, f, a⟩
  cases h
  simp [Cell.toggle_flag]

theorem Board.setCell_eq_self (b : Board) (x y : Nat) : b.setCell x y (b.grid x y) = b := by
  cases b with
  | mk w h m g =>
    unfold Board.setCell
    congr 1
    funext i j
    by_cases hij : i = x ∧ j = y
    · rw [if_pos hij]
      obtain ⟨rfl, rfl⟩ := hij
      rfl
    · rw [if_neg hij]

theorem Board.setCell_setCell (b : Board) (x y : Nat) (c1 c2 : Cell) :
    (b.setCell x y c1).setCell x y c2 = b.setCell x y c2 := by
  cases b with
  | mk w h m g =>
    unfold Board.setCell
    congr 1
    funext i j
    by_cases hij : i = x ∧ j = y <;> simp [hij]

/-- C7: toggling the flag of a revealed cell is a no-op, at the cell level
and through `Board.toggle_flag`; on an unrevealed cell one toggle flips
`is_flagged` and two successive toggles restore the original state. -/
theorem toggle_flag_involution :
    (∀ c : Cell, c.is_revealed = true → c.toggle_flag = c) ∧
    (∀ c : Cell, c.is_revealed = false →
      c.toggle_flag.is_flagged = !c.is_flagged ∧ c.toggle_flag.toggle_flag = c) ∧
    (∀ (b : Board) (x y : Nat), (b.grid x y).is_revealed = true → b.toggle_flag x y = b) ∧
    (∀ (b : Board) (x y : Nat), (b.grid x y).is_revealed = false →
      (b.toggle_flag x y).toggle_flag x y = b ∧
      ((b.toggle_flag x y).grid x y).is_flagged = !(b.grid x y).is_flagged) := by
  refine ⟨Cell.toggle_flag_of_revealed, ?_, ?_, ?_⟩
  · intro c h
    exact ⟨by rw [Cell.toggle_flag_of_unrevealed c h], Cell.toggle_toggle c h⟩
  · intro b x y h
    unfold Board.toggle_flag
    rw [Cell.toggle_flag_of_revealed _ h]
    exact Board.setCell_eq_self b x y
  · intro b x y h
    constructor
    · unfold Board.toggle_flag
      rw [Board.grid_setCell_self, Board.setCell_setCell, Cell.toggle_toggle _ h]
      exact Board.setCell_eq_self b x y
    · unfold Board.toggle_flag
      rw [Board.grid_setCell_self, Cell.toggle_flag_of_unrevealed _ h]

theorem toggle_flag_involution_witness :
    cPlain.is_revealed = false ∧ cPlain.toggle_flag.toggle_flag = cPlain ∧
      (sampleFlagged.toggle_flag 0 0).toggle_flag 0 0 = sampleFlagged :=
  ⟨rfl, (toggle_flag_involution.2.1 cPlain rfl).2,
    (toggle_flag_involution.2.2.2 sampleFlagged 0 0 rfl).1⟩

/-! ### Flagged cells are never revealed by the flood-fill -/

theorem reveal_cell_fuel_flagged_frame :
    ∀ (fuel : Nat) (s : Board) (x y i j : Nat), (s.grid i j).is_flagged = true →
      ((reveal_cell_fuel fuel s x y).grid i j).is_revealed = (s.grid i j).is_revealed := by
  intro fuel
  induction fuel with
  | zero => intro s x y i j _; rfl
  | succ f ih =>
    intro s x y i j hflag
    rw [reveal_cell_fuel_succ]
    by_cases hguard : ((s.grid x y).is_revealed || (s.grid x y).is_flagged) = true
    · rw [if_pos hguard]
    · rw [if_neg hguard]
      have hflagxy : (s.grid x y).is_flagged = false := by
        simp only [Bool.or_eq_true, not_or, Bool.not_eq_true] at hguard
        exact hguard.2
      have hne : ¬(i = x ∧ j = y) := by
        rintro ⟨rfl, rfl⟩
        rw [hflag] at hflagxy
        cases hflagxy
      have hgrid1 : ((s.setCell x y (s.grid x y).reveal).grid i j) = s.grid i j :=
        Board.grid_setCell_ne _ _ _ _ hne
      by_cases hzero : (s.grid x y).adjacent_mines = 0 ∧ (s.grid x y).is_mine = false
      · rw [if_pos hzero]
        unfold reveal_adjacent_cells
        have hfold := foldl_inv
          (fun t p => if (t.grid p.1 p.2).is_revealed then t else reveal_cell_fuel f t p.1 p.2)
          (fun t => (t.grid i j).is_flagged = true ∧
            (t.grid i j).is_revealed = (s.grid i j).is_revealed)
          (nbrPairs (s.setCell x y (s.grid x y).reveal).width
            (s.setCell x y (s.grid x y).reveal).height (x : Int) (y : Int))
          (s.setCell x y (s.grid x y).reveal)
          ⟨by rw [hgrid1]; exact hflag, by rw [hgrid1]⟩
          ?_
        · exact hfold.2
        · intro t r _ ht
          dsimp only
          split
          · exact ht
          · have hsk := reveal_cell_fuel_skeleton f t r.1 r.2
            refine ⟨?_, ?_⟩
            · rw [(hsk.2.2.2 i j).2.1]
              exact ht.1
            · rw [ih t r.1 r.2 i j ht.1]
              exact ht.2
      · rw [if_neg hzero]
        rw [hgrid1]

/-! ### Fields preserved by construction -/

theorem place_mines_fields (stream : Nat → Nat × Nat) :
    ∀ (fuel k placed : Nat) (b b2 : Board),
      Board.place_mines stream fuel k placed b = some b2 →
      b2.width = b.width ∧ b2.height = b.height ∧ b2.num_mines = b.num_mines ∧
      ∀ i j, (b2.grid i j).is_revealed = (b.grid i j).is_revealed ∧
        (b2.grid i j).is_flagged = (b.grid i j).is_flagged ∧
        (b2.grid i j).adjacent_mines = (b.grid i j).adjacent_mines := by
  intro fuel
  induction fuel with
  | zero =>
    intro k placed b b2 h
    unfold Board.place_mines at h
    split at h
    · cases h
      exact ⟨rfl, rfl, rfl, fun i j => ⟨rfl, rfl, rfl⟩⟩
    · cases h
  | succ f ih =>
    intro k placed b b2 h
    unfold Board.place_mines at h
    split at h
    · cases h
      exact ⟨rfl, rfl, rfl, fun i j => ⟨rfl, rfl, rfl⟩⟩
    · split at h
      · exact ih (k + 1) placed b b2 h
      · have hstep := ih (k + 1) (placed + 1) _ b2 h
        refine ⟨hstep.1, hstep.2.1, hstep.2.2.1, fun i j => ?_⟩
        obtain ⟨h1, h2, h3⟩ := hstep.2.2.2 i j
        by_cases hij : i = (stream k).1 ∧ j = (stream k).2
        · obtain ⟨rfl, rfl⟩ := hij
          rw [h1, h2, h3, Board.grid_setCell_self]
          exact ⟨rfl, rfl, rfl⟩
        · rw [h1, h2, h3, Board.grid_setCell_ne _ _ _ _ hij]
          exact ⟨rfl, rfl, rfl⟩

theorem calc_width (b : Board) : b.calculate_adjacency.width = b.width := rfl

theorem calc_height (b : Board) : b.calculate_adjacency.height = b.height := rfl

theorem calc_is_mine (b : Board) (i j : Nat) :
    (b.calculate_adjacency.grid i j).is_mine = (b.grid i j).is_mine := by
  unfold Board.calculate_adjacency
  simp only
  split <;> rfl

theorem calc_is_revealed (b : Board) (i j : Nat) :
    (b.calculate_adjacency.grid i j).is_revealed = (b.grid i j).is_revealed := by
  unfold Board.calculate_adjacency
  simp only
  split <;> rfl

theorem calc_is_flagged (b : Board) (i j : Nat) :
    (b.calculate_adjacency.grid i j).is_flagged = (b.grid i j).is_flagged := by
  unfold Board.calculate_adjacency
  simp only
  split <;> rfl

theorem calc_adjacent_of_not_mine (b : Board) (i j : Nat) (hi : i < b.width)
    (hj : j < b.height) (hm : (b.grid i j).is_mine = false) :
    (b.calculate_adjacency.grid i j).adjacent_mines = b.count_adjacent_mines i j := by
  unfold Board.calculate_adjacency
  simp only
  rw [if_pos ⟨hi, hj, hm⟩]

theorem calc_adjacent_of_mine (b : Board) (i j : Nat) (hm : (b.grid i j).is_mine = true) :
    (b.calculate_adjacency.grid i j).adjacent_mines = (b.grid i j).adjacent_mines := by
  unfold Board.calculate_adjacency
  simp only
  rw [if_neg]
  rintro ⟨-, -, hfalse⟩
  rw [hm] at hfalse
  cases hfalse

theorem board_new_unplayed (w h m : Nat) (stream : Nat → Nat × Nat) (fuel : Nat)
    (b : Board) (hnew : Board.new w h m stream fuel = some b) :
    ∀ i j, (b.grid i j).is_revealed = false ∧ (b.grid i j).is_flagged = false := by
  unfold Board.new at hnew
  cases hpm : Board.place_mines stream fuel 0 0 (Board.initGrid w h m) with
  | none => rw [hpm] at hnew; cases hnew
  | some b1 =>
    rw [hpm] at hnew
    simp only [Option.map_some'] at hnew
    cases hnew
    intro i j
    have hf := (place_mines_fields stream fuel 0 0 _ b1 hpm).2.2.2 i j
    rw [calc_is_revealed, calc_is_flagged, hf.1, hf.2.1]
    exact ⟨rfl, rfl⟩

/-- C6: revealing a flagged cell is a no-op at cell level and through
`Board.reveal_cell`; an unflagged cell gets revealed by `Cell.reveal`; and
the exclusion of revealed-and-flagged is an invariant: it holds after
construction and is preserved by `reveal_cell` and `toggle_flag`. -/
theorem flagged_cells_protected :
    (∀ c : Cell, c.is_flagged = true → c.reveal = c) ∧
    (∀ c : Cell, c.is_flagged = false → c.reveal.is_revealed = true) ∧
    (∀ (b : Board) (x y : Nat), (b.grid x y).is_flagged = true → b.reveal_cell x y = b) ∧
    (∀ (b : Board) (x y : Nat),
      (∀ i j, ¬((b.grid i j).is_revealed = true ∧ (b.grid i j).is_flagged = true)) →
      (∀ i j, ¬(((b.reveal_cell x y).grid i j).is_revealed = true ∧
        ((b.reveal_cell x y).grid i j).is_flagged = true)) ∧
      (∀ i j, ¬(((b.toggle_flag x y).grid i j).is_revealed = true ∧
        ((b.toggle_flag x y).grid i j).is_flagged = true))) ∧
    (∀ (w h m : Nat) (stream : Nat → Nat × Nat) (fuel : Nat) (b : Board),
      Board.new w h m stream fuel = some b →
      ∀ i j, ¬((b.grid i j).is_revealed = true ∧ (b.grid i j).is_flagged = true)) := by
  refine ⟨?_, ?_, ?_, ?_, ?_⟩
  · intro c h
    simp [Cell.reveal, h]
  · intro c h
    exact Cell.reveal_is_revealed c h
  · intro b x y h
    unfold Board.reveal_cell
    cases hcnt : b.unrevealedCount with
    | zero => rfl
    | succ n =>
      rw [reveal_cell_fuel_succ, if_pos (by rw [h, Bool.or_true])]
  · intro b x y hinv
    constructor
    · intro i j
      unfold Board.reveal_cell
      rintro ⟨hrev2, hflag2⟩
      have hsk := reveal_cell_fuel_skeleton b.unrevealedCount b x y
      have hflagb : (b.grid i j).is_flagged = true := by
        rw [← (hsk.2.2.2 i j).2.1]
        exact hflag2
      have hfr := reveal_cell_fuel_flagged_frame b.unrevealedCount b x y i j hflagb
      rw [hfr] at hrev2
      exact hinv i j ⟨hrev2, hflagb⟩
    · intro i j
      unfold Board.toggle_flag
      rintro ⟨hrev2, hflag2⟩
      by_cases hij : i = x ∧ j = y
      · obtain ⟨rfl, rfl⟩ := hij
        rw [Board.grid_setCell_self] at hrev2 hflag2
        rw [Cell.toggle_flag_is_revealed] at hrev2
        rw [Cell.toggle_flag_of_revealed _ hrev2] at hflag2
        exact hinv i j ⟨hrev2, hflag2⟩
      · rw [Board.grid_setCell_ne _ _ _ _ hij] at hrev2 hflag2
        exact hinv i j ⟨hrev2, hflag2⟩
  · intro w h m stream fuel b hnew i j
    rintro ⟨hrev, -⟩
    rw [(board_new_unplayed w h m stream fuel b hnew i j).1] at hrev
    cases hrev

theorem flagged_cells_protected_witness :
    cFlagged.is_flagged = true ∧ cFlagged.reveal = cFlagged ∧
      (sampleFlagged.grid 2 0).is_flagged = true ∧
      sampleFlagged.reveal_cell 2 0 = sampleFlagged :=
  ⟨rfl, flagged_cells_protected.1 cFlagged rfl, by decide,
    flagged_cells_protected.2.2.1 sampleFlagged 2 0 (by decide)⟩

/-! ### The mine count -/

theorem Board.mem_mineFilter {b : Board} {i j : Nat} :
    (i, j) ∈ ((Finset.range b.width ×ˢ Finset.range b.height).filter
      (fun p => (b.grid p.1 p.2).is_mine = true)) ↔
    i < b.width ∧ j < b.height ∧ (b.grid i j).is_mine = true := by
  simp [Finset.mem_filter, Finset.mem_product, and_assoc]

theorem Board.mineCount_set_mine {b : Board} {x y : Nat} (hx : x < b.width)
    (hy : y < b.height) (hm : (b.grid x y).is_mine = false) :
    (b.setCell x y { b.grid x y with is_mine := true }).mineCount = b.mineCount + 1 := by
  have hnotmem : (x, y) ∉ ((Finset.range b.width ×ˢ Finset.range b.height).filter
      (fun p => (b.grid p.1 p.2).is_mine = true)) := by
    rw [Board.mem_mineFilter]
    rintro ⟨-, -, hcon⟩
    rw [hm] at hcon
    cases hcon
  have hset : ((Finset.range (b.setCell x y { b.grid x y with is_mine := true }).width ×ˢ
        Finset.range (b.setCell x y { b.grid x y with is_mine := true }).height).filter
      (fun p => ((b.setCell x y { b.grid x y with is_mine := true }).grid p.1 p.2).is_mine
        = true)) =
      insert (x, y) ((Finset.range b.width ×ˢ Finset.range b.height).filter
        (fun p => (b.grid p.1 p.2).is_mine = true)) := by
    ext p
    cases p with
    | mk i j =>
      rw [Finset.mem_insert, Board.mem_mineFilter, Board.mem_mineFilter]
      by_cases hij : i = x ∧ j = y
      · obtain ⟨rfl, rfl⟩ := hij
        rw [Board.width_setCell, Board.height_setCell, Board.grid_setCell_self]
        simp [hx, hy]
      · have hne : ((i, j) : Nat × Nat) ≠ (x, y) := by
          intro hcontra
          injection hcontra with h1 h2
          exact hij ⟨h1, h2⟩
        rw [Board.width_setCell, Board.height_setCell, Board.grid_setCell_ne _ _ _ _ hij]
        simp [hne]
  unfold Board.mineCount
  rw [hset, Finset.card_insert_of_not_mem hnotmem]

theorem initGrid_mineCount (w h m : Nat) : (Board.initGrid w h m).mineCount = 0 := by
  unfold Board.mineCount
  rw [Finset.card_eq_zero, Finset.filter_eq_empty_iff]
  intro p _
  simp [Board.initGrid]

theorem mineCount_congr {b b2 : Board} (hw : b2.width = b.width) (hh : b2.height = b.height)
    (hm : ∀ i j, (b2.grid i j).is_mine = (b.grid i j).is_mine) :
    b2.mineCount = b.mineCount := by
  unfold Board.mineCount
  rw [hw, hh]
  congr 1
  exact Finset.filter_congr fun p _ => by rw [hm p.1 p.2]

theorem place_mines_count (stream : Nat → Nat × Nat) :
    ∀ (fuel k placed : Nat) (b b2 : Board),
      (∀ n, (stream n).1 < b.width ∧ (stream n).2 < b.height) →
      placed ≤ b.num_mines →
      Board.place_mines stream fuel k placed b = some b2 →
      b2.mineCount + placed = b.mineCount + b.num_mines := by
  intro fuel
  induction fuel with
  | zero =>
    intro k placed b b2 hstream hple h
    unfold Board.place_mines at h
    split at h
    · rename_i hcond
      cases h
      omega
    · cases h
  | succ f ih =>
    intro k placed b b2 hstream hple h
    unfold Board.place_mines at h
    split at h
    · rename_i hcond
      cases h
      omega
    · rename_i hcond
      split at h
      · exact ih (k + 1) placed b b2 hstream hple h
      · rename_i hmine
        simp only [Bool.not_eq_true] at hmine
        have hs := hstream k
        have hcnt := Board.mineCount_set_mine hs.1 hs.2 hmine
        have hple2 : placed + 1 ≤ (b.setCell (stream k).1 (stream k).2
            { b.grid (stream k).1 (stream k).2 with is_mine := true }).num_mines := by
          rw [Board.num_mines_setCell]
          omega
        have hrec := ih (k + 1) (placed + 1)
          (b.setCell (stream k).1 (stream k).2
            { b.grid (stream k).1 (stream k).2 with is_mine := true })
          b2 hstream hple2 h
        rw [hcnt, Board.num_mines_setCell] at hrec
        omega

/-- C4: a successful construction places exactly `m` mines (rejection
sampling places one fresh mine per successful draw until `mines_placed`
reaches `num_mines`), and neither `reveal_cell` nor `toggle_flag` ever
changes any cell's `is_mine` flag; `check_win` is a pure query in this
model and touches no state at all. -/
theorem board_new_mine_count (w h m : Nat) (stream : Nat → Nat × Nat) (fuel : Nat)
    (b : Board) (_hm : m < w * h) (hnew : Board.new w h m stream fuel = some b)
    (hstream : ∀ n, (stream n).1 < w ∧ (stream n).2 < h) :
    b.mineCount = m ∧
    (∀ (s : Board) (x y i j : Nat),
      ((s.reveal_cell x y).grid i j).is_mine = (s.grid i j).is_mine) ∧
    (∀ (s : Board) (x y i j : Nat),
      ((s.toggle_flag x y).grid i j).is_mine = (s.grid i j).is_mine) := by
  refine ⟨?_, ?_, ?_⟩
  · unfold Board.new at hnew
    cases hpm : Board.place_mines stream fuel 0 0 (Board.initGrid w h m) with
    | none => rw [hpm] at hnew; cases hnew
    | some b1 =>
      rw [hpm] at hnew
      simp only [Option.map_some'] at hnew
      cases hnew
      have hc := place_mines_count stream fuel 0 0 (Board.initGrid w h m) b1 hstream
        (Nat.zero_le _) hpm
      have h0 : (Board.initGrid w h m).mineCount = 0 := initGrid_mineCount w h m
      have hm0 : (Board.initGrid w h m).num_mines = m := rfl
      have hcalc : (b1.calculate_adjacency).mineCount = b1.mineCount :=
        mineCount_congr (calc_width b1) (calc_height b1) (calc_is_mine b1)
      rw [h0, hm0] at hc
      rw [hcalc]
      omega
  · intro s x y i j
    unfold Board.reveal_cell
    exact ((reveal_cell_fuel_skeleton s.unrevealedCount s x y).2.2.2 i j).1
  · intro s x y i j
    unfold Board.toggle_flag
    by_cases hij : i = x ∧ j = y
    · obtain ⟨rfl, rfl⟩ := hij
      rw [Board.grid_setCell_self, Cell.toggle_flag_is_mine]
    · rw [Board.grid_setCell_ne _ _ _ _ hij]

theorem board_new_mine_count_witness :
    Board.new 2 2 1 sampleStream 1 = some sampleBuilt ∧ sampleBuilt.mineCount = 1 :=
  ⟨rfl, (board_new_mine_count 2 2 1 sampleStream 1 sampleBuilt (by decide) rfl
    (fun n => ⟨Nat.mod_lt _ (by decide), Nat.mod_lt _ (by decide)⟩)).1⟩

/-! ### The adjacency count equals the specification count -/

theorem nbrIdxs_nodup (n : Nat) (x : Int) : (nbrIdxs n x).Nodup := by
  unfold nbrIdxs
  exact List.nodup_range' _ _

theorem nbrPairs_nodup (w h : Nat) (x y : Int) : (nbrPairs w h x y).Nodup :=
  (nbrIdxs_nodup w x).product (nbrIdxs_nodup h y)

theorem count_adjacent_eq_card (b : Board) (x y : Nat) :
    b.count_adjacent_mines x y = b.mineNbhdCard x y := by
  unfold Board.count_adjacent_mines Board.mineNbhdCard
  rw [List.countP_eq_length_filter]
  have hnd : ((nbrPairs b.width b.height (x : Int) (y : Int)).filter
      (fun p => (b.grid p.1 p.2).is_mine)).Nodup :=
    (nbrPairs_nodup _ _ _ _).filter _
  rw [← List.toFinset_card_of_nodup hnd]
  congr 1
  ext p
  cases p with
  | mk i j =>
    rw [List.mem_toFinset, List.mem_filter, Finset.mem_filter, Finset.mem_product, mem_nbrPairs]
    simp only [Finset.mem_range, mem_nbrIdxs_nat]
    constructor
    · rintro ⟨⟨⟨h1, h2, h3⟩, h4, h5, h6⟩, hm⟩
      exact ⟨⟨h2, h5⟩, by omega, by omega, by omega, by omega, hm⟩
    · rintro ⟨⟨h1, h2⟩, h3, h4, h5, h6, hm⟩
      exact ⟨⟨⟨by omega, h1, by omega⟩, by omega, h2, by omega⟩, hm⟩

theorem mineNbhdCard_congr {b b2 : Board} (hw : b2.width = b.width)
    (hh : b2.height = b.height)
    (hm : ∀ i j, (b2.grid i j).is_mine = (b.grid i j).is_mine) (x y : Nat) :
    b2.mineNbhdCard x y = b.mineNbhdCard x y := by
  unfold Board.mineNbhdCard
  rw [hw, hh]
  congr 1
  exact Finset.filter_congr fun p _ => by rw [hm p.1 p.2]

/-- C3: after a successful construction, every in-range non-mine cell stores
as `adjacent_mines` the exact number of mine cells in its clamped 3x3
neighbourhood, and every mine cell keeps `adjacent_mines = 0`. -/
theorem board_new_adjacency (w h m : Nat) (stream : Nat → Nat × Nat) (fuel : Nat)
    (b : Board) (hnew : Board.new w h m stream fuel = some b) :
    ∀ x y, x < b.width → y < b.height →
      ((b.grid x y).is_mine = false →
        (b.grid x y).adjacent_mines = b.mineNbhdCard x y) ∧
      ((b.grid x y).is_mine = true → (b.grid x y).adjacent_mines = 0) := by
  unfold Board.new at hnew
  cases hpm : Board.place_mines stream fuel 0 0 (Board.initGrid w h m) with
  | none => rw [hpm] at hnew; cases hnew
  | some b1 =>
    rw [hpm] at hnew
    simp only [Option.map_some'] at hnew
    cases hnew
    intro x y hx hy
    constructor
    · intro hm2
      have hm1 : (b1.grid x y).is_mine = false := by
        rw [← calc_is_mine b1 x y]
        exact hm2
      rw [calc_adjacent_of_not_mine b1 x y hx hy hm1, count_adjacent_eq_card]
      exact (mineNbhdCard_congr (calc_width b1) (calc_height b1) (calc_is_mine b1) x y).symm
    · intro hm2
      have hm1 : (b1.grid x y).is_mine = true := by
        rw [← calc_is_mine b1 x y]
        exact hm2
      rw [calc_adjacent_of_mine b1 x y hm1]
      have hf := (place_mines_fields stream fuel 0 0 _ b1 hpm).2.2.2 x y
      rw [hf.2.2]
      rfl

theorem board_new_adjacency_witness :
    Board.new 2 2 1 sampleStream 1 = some sampleBuilt ∧
      ((sampleBuilt.grid 0 1).is_mine = false →
        (sampleBuilt.grid 0 1).adjacent_mines = sampleBuilt.mineNbhdCard 0 1) :=
  ⟨rfl, (board_new_adjacency 2 2 1 sampleStream 1 sampleBuilt rfl 0 1
    (by decide) (by decide)).1⟩

/-- C8: a left click on a mine only sets `game_over`: `reveal_cell` is not
called, the board is unchanged and the mine cell's `is_revealed` keeps its
prior value (false for any reachable state, since reveal was never invoked
on it); `reveal_cell` is invoked exactly when the target is not a mine. -/
theorem mine_click_no_reveal (s : GameState) (gx gy : Nat)
    (hmine : (s.board.grid gx gy).is_mine = true) :
    (handle_click s 1 gx gy).board = s.board ∧
    (handle_click s 1 gx gy).game_over = true ∧
    ((handle_click s 1 gx gy).board.grid gx gy).is_revealed =
      (s.board.grid gx gy).is_revealed ∧
    (∀ (s2 : GameState) (gx2 gy2 : Nat), (s2.board.grid gx2 gy2).is_mine = false →
      (handle_click s2 1 gx2 gy2).board = s2.board.reveal_cell gx2 gy2) := by
  refine ⟨?_, ?_, ?_, ?_⟩
  · unfold handle_click
    rw [if_pos rfl, if_pos hmine]
    dsimp only
    split <;> rfl
  · unfold handle_click
    rw [if_pos rfl, if_pos hmine]
    dsimp only
    split <;> rfl
  · unfold handle_click
    rw [if_pos rfl, if_pos hmine]
    dsimp only
    split <;> rfl
  · intro s2 gx2 gy2 hnm
    unfold handle_click
    rw [if_pos rfl,
      if_neg (show ¬((s2.board.grid gx2 gy2).is_mine = true) by simp [hnm])]
    dsimp only
    split <;> rfl

theorem mine_click_no_reveal_witness :
    (sampleGS.board.grid 0 0).is_mine = true ∧
      (handle_click sampleGS 1 0 0).board = sampleGS.board ∧
      (handle_click sampleGS 1 0 0).game_over = true :=
  ⟨by decide, (mine_click_no_reveal sampleGS 0 0 (by decide)).1,
    (mine_click_no_reveal sampleGS 0 0 (by decide)).2.1⟩

/-- C9: every handled click ends by consulting `check_win` on the board that
results from the click and sets `game_won` whenever it answers true; in
particular a left click on a flagged mine of a board already in the winning
configuration sets `game_over` and `game_won` in the same step. -/
theorem handle_click_won_step (s1 : GameState) :
    ((if s1.board.check_win = true then { s1 with game_won := true }
      else s1) : GameState).board.check_win = true →
    ((if s1.board.check_win = true then { s1 with game_won := true }
      else s1) : GameState).game_won = true := by
  split
  · intro _
    rfl
  · rename_i hc
    intro h2
    exact absurd h2 hc

theorem click_sets_game_won (s : GameState) (button gx gy : Nat) :
    ((handle_click s button gx gy).board.check_win = true →
      (handle_click s button gx gy).game_won = true) ∧
    ((s.board.grid gx gy).is_mine = true → (s.board.grid gx gy).is_flagged = true →
      s.board.check_win = true →
      (handle_click s 1 gx gy).game_over = true ∧
        (handle_click s 1 gx gy).game_won = true) := by
  constructor
  · unfold handle_click
    exact handle_click_won_step _
  · intro hm _hf hw
    unfold handle_click
    rw [if_pos rfl, if_pos hm]
    rw [if_pos (show ({ s with game_over := true } : GameState).board.check_win = true from hw)]
    exact ⟨rfl, rfl⟩

theorem click_sets_game_won_witness :
    (sampleGSWon.board.grid 0 0).is_mine = true ∧
      (handle_click sampleGSWon 1 0 0).game_over = true ∧
      (handle_click sampleGSWon 1 0 0).game_won = true :=
  ⟨by decide,
    ((click_sets_game_won sampleGSWon 1 0 0).2 (by decide) (by decide) (by decide)).1,
    ((click_sets_game_won sampleGSWon 1 0 0).2 (by decide) (by decide) (by decide)).2⟩

/-! ### Python list indexing at the board entry points -/

theorem pyIdx_none (len : Nat) (i : Int)
    (h : (len : Int) ≤ i ∨ i < -(len : Int)) : pyIdx len i = none := by
  unfold pyIdx
  rw [if_neg (by omega), if_neg (by omega)]

theorem pyIdx_neg (len : Nat) (i : Int) (h1 : -(len : Int) ≤ i) (h2 : i < 0) :
    pyIdx len i = some (i % (len : Int)).toNat := by
  unfold pyIdx
  rw [if_neg (by omega), if_pos (by omega)]
  have hmod : i % (len : Int) = i + len := by
    rw [← Int.add_emod_self, Int.emod_eq_of_lt (by omega) (by omega)]
  rw [hmod]

theorem reveal_cell_py_resolved (b : Board) (x y : Int) (nx ny : Nat)
    (hpx : pyIdx b.width x = some nx) (hpy : pyIdx b.height y = some ny) :
    b.reveal_cell_py x y =
      (if (b.grid nx ny).is_revealed || (b.grid nx ny).is_flagged then some b
       else if (b.grid nx ny).adjacent_mines = 0 ∧ (b.grid nx ny).is_mine = false then
         some (reveal_adjacent_cells
           (reveal_cell_fuel (b.setCell nx ny (b.grid nx ny).reveal).unrevealedCount)
           (b.setCell nx ny (b.grid nx ny).reveal) x y)
       else some (b.setCell nx ny (b.grid nx ny).reveal)) := by
  unfold Board.reveal_cell_py
  rw [hpx, hpy]
  rfl

/-- C10 (amended): negative coordinates in `[-width, 0) x [-height, 0)` are
accepted without an index error and alias the cell at
`(x mod width, y mod height)`: `toggle_flag` toggles exactly that cell, and
`reveal_cell` reads its guard from and reveals that cell (when it is
neither revealed nor flagged).  An index error occurs exactly for
coordinates `≥ width` / `≥ height` or `< -width` / `< -height`. -/
theorem negative_index_aliasing (b : Board) (x y : Int)
    (hx1 : -(b.width : Int) ≤ x) (hx2 : x < 0)
    (hy1 : -(b.height : Int) ≤ y) (hy2 : y < 0) :
    pyIdx b.width x = some (x % (b.width : Int)).toNat ∧
    pyIdx b.height y = some (y % (b.height : Int)).toNat ∧
    b.toggle_flag_py x y =
      some (b.toggle_flag (x % (b.width : Int)).toNat (y % (b.height : Int)).toNat) ∧
    (b.reveal_cell_py x y).isSome = true ∧
    (∀ b2, b.reveal_cell_py x y = some b2 →
      (b.grid (x % (b.width : Int)).toNat (y % (b.height : Int)).toNat).is_flagged = false →
      (b2.grid (x % (b.width : Int)).toNat
        (y % (b.height : Int)).toNat).is_revealed = true) ∧
    (∀ (x2 y2 : Int),
      ((b.width : Int) ≤ x2 ∨ x2 < -(b.width : Int) ∨
        (b.height : Int) ≤ y2 ∨ y2 < -(b.height : Int)) →
      b.toggle_flag_py x2 y2 = none ∧ b.reveal_cell_py x2 y2 = none) := by
  have hpx := pyIdx_neg b.width x hx1 hx2
  have hpy := pyIdx_neg b.height y hy1 hy2
  have hres := reveal_cell_py_resolved b x y _ _ hpx hpy
  refine ⟨hpx, hpy, ?_, ?_, ?_, ?_⟩
  · unfold Board.toggle_flag_py
    rw [hpx, hpy]
    rfl
  · rw [hres]
    split
    · rfl
    · split <;> rfl
  · intro b2 heq hflag
    rw [hres] at heq
    split at heq
    · rename_i hguard
      cases heq
      rw [hflag, Bool.or_false] at hguard
      exact hguard
    · rename_i hguard
      have hb1 : ((b.setCell (x % (b.width : Int)).toNat (y % (b.height : Int)).toNat
          (b.grid (x % (b.width : Int)).toNat (y % (b.height : Int)).toNat).reveal).grid
          (x % (b.width : Int)).toNat (y % (b.height : Int)).toNat).is_revealed = true := by
        rw [Board.grid_setCell_self]
        exact Cell.reveal_is_revealed _ hflag
      split at heq
      · cases heq
        unfold reveal_adjacent_cells
        exact fold_step_mono _ _ _ _ _ hb1
      · cases heq
        exact hb1
  · intro x2 y2 hcase
    rcases hcase with h | h | h | h
    · have hnx := pyIdx_none b.width x2 (Or.inl h)
      constructor
      · unfold Board.toggle_flag_py
        rw [hnx]
        rfl
      · unfold Board.reveal_cell_py
        rw [hnx]
        rfl
    · have hnx := pyIdx_none b.width x2 (Or.inr h)
      constructor
      · unfold Board.toggle_flag_py
        rw [hnx]
        rfl
      · unfold Board.reveal_cell_py
        rw [hnx]
        rfl
    · have hny := pyIdx_none b.height y2 (Or.inl h)
      cases hx2 : pyIdx b.width x2 with
      | none =>
        constructor
        · unfold Board.toggle_flag_py
          rw [hx2]
          rfl
        · unfold Board.reveal_cell_py
          rw [hx2]
          rfl
      | some nx =>
        constructor
        · unfold Board.toggle_flag_py
          rw [hx2, hny]
          rfl
        · unfold Board.reveal_cell_py
          rw [hx2, hny]
          rfl
    · have hny := pyIdx_none b.height y2 (Or.inr h)
      cases hx2 : pyIdx b.width x2 with
      | none =>
        constructor
        · unfold Board.toggle_flag_py
          rw [hx2]
          rfl
        · unfold Board.reveal_cell_py
          rw [hx2]
          rfl
      | some nx =>
        constructor
        · unfold Board.toggle_flag_py
          rw [hx2, hny]
          rfl
        · unfold Board.reveal_cell_py
          rw [hx2, hny]
          rfl

theorem negative_index_aliasing_witness :
    sampleMine.toggle_flag_py (-1) (-2) =
      some (sampleMine.toggle_flag ((-1 : Int) % (sampleMine.width : Int)).toNat
        (((-2 : Int)) % (sampleMine.height : Int)).toNat) :=
  (negative_index_aliasing sampleMine (-1) (-2)
    (by decide) (by decide) (by decide) (by decide)).2.2.1

/-- C10 counterexample: with a 2x2 board, the coordinate `x = -3` is neither
`≥ width` nor is `y = 0` `≥ height`, yet `grid[-3][0]` raises `IndexError`
(modelled as `none`): the claim's clause that only coordinates `≥ width` or
`≥ height` fail is false. -/
theorem negative_index_claim_counterexample :
    sampleMine.toggle_flag_py (-3) 0 = none ∧
      ¬((sampleMine.width : Int) ≤ -3) ∧ ¬((sampleMine.height : Int) ≤ 0) :=
  ⟨rfl, by decide, by decide⟩
